import Mathlib

/-!
Verification of the worker bootstrap helpers (src/workerHelpers.js).

The file embeds the four pieces of the source module:
* `waiterRun`       — the one-shot message waiter `waitForMsgType`;
* `trampoline`      — the worker-side bootstrap keyed on the ambient global
  `name` (`workerHelpersTopLevel`);
* `hostStep` / `startWorkersRun` — the host-side `startWorkers` orchestration,
  as a deterministic event-trace semantics driven by the list of messages the
  spawned workers send back;
* `resolveMainModule` — the module resolver, with its two regex searches
  implemented as character-list scanners with the exact semantics of the
  source patterns.

Machine-level strings are Lean `String`s; opaque JS values (module, memory,
receiver handles, error objects) are numbered by `Nat`.
-/

/-- A message as observed by a `message` event listener: `data?.type` is
`none` when the data has no `type` field; the remaining fields model the
payload fields the bootstrap protocol reads (`init.module`, `init.memory`,
`receiver`). -/
structure Msg where
  type : Option String
  module : Nat
  memory : Nat
  receiver : Nat
deriving DecidableEq, Repr

/-- State of one `waitForMsgType` subscription: whether the listener is still
registered, the value the promise resolved with (if any), and how many times
`resolve` has been invoked. -/
structure WaiterState where
  registered : Bool
  resolved : Option Msg
  resolveCount : Nat
deriving DecidableEq, Repr

/-- One delivered message, as handled by the listener installed by
`waitForMsgType`: if the listener has been removed nothing happens; if
`data?.type !== type` the message is ignored; otherwise the listener is
removed and the promise resolved with the data. -/
def waiterStep (ty : String) (s : WaiterState) (m : Msg) : WaiterState :=
  if s.registered then
    if m.type = some ty then
      { registered := false, resolved := some m, resolveCount := s.resolveCount + 1 }
    else s
  else s

/-- Run of `waitForMsgType target ty` observed over a finite list of messages
delivered on `target`, in delivery order. -/
def waiterRun (ty : String) (ms : List Msg) : WaiterState :=
  ms.foldl (waiterStep ty) ⟨true, none, 0⟩

/-- Message type strings used by the protocol (source: the `type` fields of
the two `postMessage` payloads). -/
def initT : String := "wasm_bindgen_worker_init"

def readyT : String := "wasm_bindgen_worker_ready"

/-- The `name` the Bootstrapper passes in the `Worker` options. -/
def workerName : String := "wasm_bindgen_worker"

/-- Observable actions of one spawned context running the trampoline. -/
inductive CtxEvent where
  | listenInit
  | recvInit (m : Msg)
  | moduleResolved
  | initSyncCall (module memory : Nat)
  | readySent
  | workerLoop (receiver : Nat)
  | resolveFailed
deriving DecidableEq, Repr

/-- The body of the `name === "wasm_bindgen_worker"` block: install the
one-shot waiter for the init message, and on its resolution resolve the main
module, call `initSync(data.init)`, post the ready message, and enter
`wbg_rayon_start_worker(data.receiver)`.  `resolveOk` tells whether
`resolveMainModule()` succeeded in this context (its internals are verified
separately); on failure the rejection leaves the chain at that point. -/
def trampoline (incoming : List Msg) (resolveOk : Bool) : List CtxEvent :=
  match (waiterRun initT incoming).resolved with
  | none => [CtxEvent.listenInit]
  | some d =>
    if resolveOk then
      [CtxEvent.listenInit, CtxEvent.recvInit d, CtxEvent.moduleResolved,
       CtxEvent.initSyncCall d.module d.memory, CtxEvent.readySent,
       CtxEvent.workerLoop d.receiver]
    else
      [CtxEvent.listenInit, CtxEvent.recvInit d, CtxEvent.resolveFailed]

/-- Top level of workerHelpers.js as executed in a context whose ambient
global `name` is `globalName`: the trampoline runs iff the guard
`name === "wasm_bindgen_worker"` holds, otherwise the module load has no
bootstrap side effect. -/
def workerHelpersTopLevel (globalName : String) (incoming : List Msg)
    (resolveOk : Bool) : List CtxEvent :=
  if globalName = workerName then trampoline incoming resolveOk else []

/-! ### Waiter lemmas -/

theorem waiterStep_unregistered (ty : String) (s : WaiterState) (m : Msg)
    (h : s.registered = false) : waiterStep ty s m = s := by
  simp [waiterStep, h]

theorem waiterRun_from_unregistered (ty : String) (ms : List Msg)
    (s : WaiterState) (h : s.registered = false) :
    ms.foldl (waiterStep ty) s = s := by
  induction ms with
  | nil => rfl
  | cons m ms ih => simpa [waiterStep_unregistered ty s m h] using ih

theorem waiterRun_eq (ty : String) (ms : List Msg) :
    waiterRun ty ms =
      match ms.find? (fun m => m.type = some ty) with
      | some m => ⟨false, some m, 1⟩
      | none => ⟨true, none, 0⟩ := by
  unfold waiterRun
  induction ms with
  | nil => rfl
  | cons m ms ih =>
    by_cases h : m.type = some ty
    · simp only [List.foldl_cons, List.find?_cons]
      rw [waiterStep, if_pos rfl, if_pos h]
      rw [waiterRun_from_unregistered ty ms _ rfl]
      simp [h]
    · simp only [List.foldl_cons, List.find?_cons]
      rw [waiterStep, if_pos rfl, if_neg h]
      simpa [h] using ih

/-! ### Host-side model of `startWorkers` -/

/-- The external pool builder's interface: `numThreads()` returns
`numThreads`, `receiver()` returns `receiverVal` (the model counts its calls
through `Event.receiverCall`), `build()` is recorded as `Event.build`. -/
structure Builder where
  numThreads : Nat
  receiverVal : Nat
deriving DecidableEq, Repr

/-- The init message `startWorkers` constructs once and posts to every
worker: `{ type: 'wasm_bindgen_worker_init', init: { module, memory },
receiver: builder.receiver() }`. -/
def mkWorkerInit (module memory : Nat) (b : Builder) : Msg :=
  { type := some initT, module := module, memory := memory,
    receiver := b.receiverVal }

/-- Observable host-side actions of `startWorkers`. -/
inductive Event where
  | receiverCall
  | spawn (i : Nat) (wname : String)
  | post (i : Nat) (msg : Msg)
  | readyObs (i : Nat)
  | build
  | resolveP
deriving DecidableEq, Repr

/-- Synchronous prefix produced by the `Array.from({ length: n }, ...)`
iteration: for each index in order, spawn a module worker named
`wasm_bindgen_worker` and post it the shared init message (the `await` of the
ready message then suspends that slot). -/
def spawnPhaseAux (module memory : Nat) (b : Builder) : Nat → List Event
  | 0 => []
  | n + 1 =>
    spawnPhaseAux module memory b n ++
      [Event.spawn n workerName, Event.post n (mkWorkerInit module memory b)]

def spawnPhase (module memory : Nat) (b : Builder) : List Event :=
  spawnPhaseAux module memory b b.numThreads

/-- Host state while `startWorkers` is pending: the trace of observable
actions, the indices of workers whose ready message has not yet been
observed (their `waitForMsgType` listener is still registered), whether
`builder.build()` has run, and whether the returned promise has resolved. -/
structure HostState where
  trace : List Event
  pending : List Nat
  built : Bool
  resolved : Bool
deriving DecidableEq, Repr

/-- Settlement of `Promise.all`: once every per-worker ready promise has
resolved (and not before, and only once), `builder.build()` runs and the
promise returned by `startWorkers` resolves. -/
def checkAll (s : HostState) : HostState :=
  if s.pending = [] ∧ s.built = false then
    { s with trace := s.trace ++ [Event.build, Event.resolveP],
             built := true, resolved := true }
  else s

/-- The state right after the synchronous part of `startWorkers`: one
`builder.receiver()` call while building the init message, then the spawn
phase; every worker's ready promise is pending (for `numThreads = 0` the
empty `Promise.all` settles at once). -/
def startWorkersInit (module memory : Nat) (b : Builder) : HostState :=
  checkAll
    { trace := Event.receiverCall :: spawnPhase module memory b,
      pending := List.range b.numThreads,
      built := false, resolved := false }

/-- A message arriving on the endpoint of worker `worker` with the given
`data?.type` (the host-side waiter discards the payload). -/
structure WMsg where
  worker : Nat
  type : Option String
deriving DecidableEq, Repr

/-- Delivery of one worker message to the host: if that worker's ready
listener is still registered and the type matches
`wasm_bindgen_worker_ready`, the listener is removed and that worker's ready
promise resolves; any other message is ignored.  Afterwards `Promise.all`
settles if everything is resolved. -/
def hostStep (s : HostState) (m : WMsg) : HostState :=
  checkAll
    (if m.worker ∈ s.pending ∧ m.type = some readyT then
      { s with trace := s.trace ++ [Event.readyObs m.worker],
               pending := s.pending.erase m.worker }
    else s)

/-- Run of `startWorkers module memory b` observed over a finite list of messages
sent back by the spawned workers, in arrival order. -/
def startWorkersRun (module memory : Nat) (b : Builder)
    (msgs : List WMsg) : HostState :=
  msgs.foldl hostStep (startWorkersInit module memory b)

/-! ### Host invariant -/

/-- Shape of the spawn phase: it contains only spawn/post events. -/
theorem spawnPhaseAux_shape (module memory : Nat) (b : Builder) :
    ∀ n e, e ∈ spawnPhaseAux module memory b n →
      (∃ i, e = Event.spawn i workerName) ∨
      (∃ i, e = Event.post i (mkWorkerInit module memory b)) := by
  intro n
  induction n with
  | zero => intro e h; simp [spawnPhaseAux] at h
  | succ n ih =>
    intro e h
    simp only [spawnPhaseAux, List.mem_append, List.mem_cons,
      List.mem_singleton] at h
    rcases h with h | h | h
    · exact ih e h
    · exact Or.inl ⟨n, h⟩
    · simp only [List.not_mem_nil, or_false] at h
      exact Or.inr ⟨n, h⟩

/-- Invariant of the host state reachable from `startWorkersInit` by
deliveries of worker messages. -/
def HostInv (module memory : Nat) (b : Builder) (s : HostState) : Prop :=
  s.pending.Nodup ∧
  (∀ i ∈ s.pending, i < b.numThreads) ∧
  (∀ i, Event.readyObs i ∈ s.trace ↔ i < b.numThreads ∧ i ∉ s.pending) ∧
  (s.built = true ↔ s.pending = []) ∧
  s.resolved = s.built ∧
  (∃ l, s.trace = Event.receiverCall :: (spawnPhase module memory b ++ l) ∧
    ∀ e ∈ l, (∃ i, e = Event.readyObs i) ∨ e = Event.build ∨ e = Event.resolveP) ∧
  (if s.built = true then
    ∃ l1, s.trace = l1 ++ [Event.build, Event.resolveP] ∧
      Event.build ∉ l1 ∧ Event.resolveP ∉ l1 ∧
      ∀ i, i < b.numThreads → Event.readyObs i ∈ l1
  else Event.build ∉ s.trace ∧ Event.resolveP ∉ s.trace)

theorem inv_init (module memory : Nat) (b : Builder) :
    HostInv module memory b (startWorkersInit module memory b) := by
  have hshape := spawnPhaseAux_shape module memory b b.numThreads
  by_cases h0 : b.numThreads = 0
  · have : startWorkersInit module memory b =
        { trace := [Event.receiverCall, Event.build, Event.resolveP],
          pending := [], built := true, resolved := true } := by
      simp [startWorkersInit, checkAll, spawnPhase, spawnPhaseAux, h0]
    rw [this]
    refine ⟨List.nodup_nil, by simp, ?_, by simp, rfl, ?_, ?_⟩
    · intro i; simp [h0]
    · exact ⟨[Event.build, Event.resolveP], by simp [spawnPhase, spawnPhaseAux, h0], by simp⟩
    · simp only [if_pos rfl]
      refine ⟨[Event.receiverCall], rfl, by simp, by simp, ?_⟩
      intro i hi; omega
  · have hr : List.range b.numThreads ≠ [] := by
      simpa [List.range_eq_nil] using h0
    have : startWorkersInit module memory b =
        { trace := Event.receiverCall :: spawnPhase module memory b,
          pending := List.range b.numThreads,
          built := false, resolved := false } := by
      simp [startWorkersInit, checkAll, hr]
    rw [this]
    refine ⟨List.nodup_range _, ?_, ?_, by simp [hr], rfl, ⟨[], by simp, by simp⟩, ?_⟩
    · intro i hi; exact List.mem_range.mp hi
    · intro i
      simp only [List.mem_cons, List.mem_range]
      constructor
      · intro h
        rcases h with h | h
        · cases h
        · rcases hshape _ h with ⟨j, hj⟩ | ⟨j, hj⟩ <;> cases hj
      · rintro ⟨hi, hni⟩; exact absurd hi hni
    · simp only [Bool.false_eq_true, if_false]
      constructor
      · intro h
        rcases List.mem_cons.mp h with h | h
        · cases h
        · rcases hshape _ h with ⟨j, hj⟩ | ⟨j, hj⟩ <;> cases hj
      · intro h
        rcases List.mem_cons.mp h with h | h
        · cases h
        · rcases hshape _ h with ⟨j, hj⟩ | ⟨j, hj⟩ <;> cases hj

theorem checkAll_of_inv (s : HostState)
    (hbuilt : s.built = true ↔ s.pending = []) : checkAll s = s := by
  unfold checkAll
  split
  · next h =>
    obtain ⟨h1, h2⟩ := h
    rw [hbuilt.mpr h1] at h2
    cases h2
  · rfl

theorem inv_hostStep (module memory : Nat) (b : Builder) (s : HostState)
    (m : WMsg) (hs : HostInv module memory b s) :
    HostInv module memory b (hostStep s m) := by
  obtain ⟨hnd, hlt, hready, hbuilt, hres, ⟨l, hl, hlsh⟩, hG⟩ := hs
  by_cases hc : m.worker ∈ s.pending ∧ m.type = some readyT
  · obtain ⟨hw, hty⟩ := hc
    have hpne : s.pending ≠ [] := by
      intro h; rw [h] at hw; exact List.not_mem_nil _ hw
    have hbf : s.built = false := by
      cases hb : s.built
      · rfl
      · exact absurd (hbuilt.mp hb) hpne
    have hrf : s.resolved = false := hres.trans hbf
    have hwlt : m.worker < b.numThreads := hlt _ hw
    have hGe : Event.build ∉ s.trace ∧ Event.resolveP ∉ s.trace := by
      rw [hbf] at hG; simpa using hG
    have hmem_erase : ∀ i, i ∈ s.pending.erase m.worker ↔
        i ≠ m.worker ∧ i ∈ s.pending := fun i => hnd.mem_erase_iff
    by_cases hpe : s.pending.erase m.worker = []
    · have hstep : hostStep s m =
          { trace := (s.trace ++ [Event.readyObs m.worker]) ++
              [Event.build, Event.resolveP],
            pending := s.pending.erase m.worker,
            built := true, resolved := true } := by
        simp [hostStep, checkAll, hw, hty, hpe, hbf]
      rw [hstep]
      have hallready : ∀ i, i < b.numThreads →
          Event.readyObs i ∈ s.trace ++ [Event.readyObs m.worker] := by
        intro i hi
        by_cases hiw : i = m.worker
        · subst hiw; simp
        · have : i ∉ s.pending := by
            intro hip
            have : i ∈ s.pending.erase m.worker :=
              (hmem_erase i).mpr ⟨hiw, hip⟩
            rw [hpe] at this
            exact List.not_mem_nil _ this
          exact List.mem_append.mpr (Or.inl ((hready i).mpr ⟨hi, this⟩))
      refine ⟨hnd.erase _, ?_, ?_, by simp [hpe], rfl, ?_, ?_⟩
      · intro i hi; exact hlt _ (List.mem_of_mem_erase hi)
      · intro i
        constructor
        · intro h
          refine ⟨?_, by rw [hpe]; exact List.not_mem_nil _⟩
          rcases List.mem_append.mp h with h | h
          · rcases List.mem_append.mp h with h | h
            · exact ((hready i).mp h).1
            · rw [List.mem_singleton] at h
              injection h with h
              rw [h]; exact hwlt
          · rcases List.mem_cons.mp h with h | h
            · cases h
            · rw [List.mem_singleton] at h; cases h
        · rintro ⟨hi, -⟩
          exact List.mem_append.mpr (Or.inl (hallready i hi))
      · refine ⟨l ++ [Event.readyObs m.worker, Event.build, Event.resolveP], ?_, ?_⟩
        · simp [hl]
        · intro e he
          simp only [List.mem_append, List.mem_cons, List.mem_singleton] at he
          rcases he with he | he | he | he
          · exact hlsh e he
          · exact Or.inl ⟨_, he⟩
          · exact Or.inr (Or.inl he)
          · simp only [List.not_mem_nil, or_false] at he
            exact Or.inr (Or.inr he)
      · simp only [if_pos rfl]
        refine ⟨s.trace ++ [Event.readyObs m.worker], rfl, ?_, ?_, hallready⟩
        · intro h
          rcases List.mem_append.mp h with h | h
          · exact hGe.1 h
          · simp at h
        · intro h
          rcases List.mem_append.mp h with h | h
          · exact hGe.2 h
          · simp at h
    · have hstep : hostStep s m =
          { trace := s.trace ++ [Event.readyObs m.worker],
            pending := s.pending.erase m.worker,
            built := s.built, resolved := s.resolved } := by
        simp [hostStep, checkAll, hw, hty, hpe]
      rw [hstep]
      refine ⟨hnd.erase _, ?_, ?_, by simp [hpe, hbf], by simp [hres], ?_, ?_⟩
      · intro i hi; exact hlt _ (List.mem_of_mem_erase hi)
      · intro i
        rw [hmem_erase i]
        constructor
        · intro h
          rcases List.mem_append.mp h with h | h
          · obtain ⟨h1, h2⟩ := (hready i).mp h
            exact ⟨h1, fun hcon => h2 hcon.2⟩
          · rw [List.mem_singleton] at h
            injection h with h
            subst h
            exact ⟨hwlt, fun hcon => hcon.1 rfl⟩
        · rintro ⟨h1, h2⟩
          by_cases hiw : i = m.worker
          · subst hiw
            exact List.mem_append.mpr (Or.inr (List.mem_singleton.mpr rfl))
          · refine List.mem_append.mpr (Or.inl ?_)
            exact (hready i).mpr ⟨h1, fun hip => h2 ⟨hiw, hip⟩⟩
      · refine ⟨l ++ [Event.readyObs m.worker], by simp [hl], ?_⟩
        intro e he
        rcases List.mem_append.mp he with he | he
        · exact hlsh e he
        · rw [List.mem_singleton] at he
          exact Or.inl ⟨_, he⟩
      · rw [hbf]
        simp only [Bool.false_eq_true, if_false]
        constructor
        · intro h
          rcases List.mem_append.mp h with h | h
          · exact hGe.1 h
          · simp at h
        · intro h
          rcases List.mem_append.mp h with h | h
          · exact hGe.2 h
          · simp at h
  · have hstep : hostStep s m = s := by
      have : (if m.worker ∈ s.pending ∧ m.type = some readyT then
          { s with trace := s.trace ++ [Event.readyObs m.worker],
                   pending := s.pending.erase m.worker }
        else s) = s := if_neg hc
      rw [hostStep, this, checkAll_of_inv s hbuilt]
    rw [hstep]
    exact ⟨hnd, hlt, hready, hbuilt, hres, ⟨l, hl, hlsh⟩, hG⟩

theorem inv_run (module memory : Nat) (b : Builder) (msgs : List WMsg) :
    HostInv module memory b (startWorkersRun module memory b msgs) := by
  unfold startWorkersRun
  have h := inv_init module memory b
  generalize startWorkersInit module memory b = s at h ⊢
  induction msgs generalizing s with
  | nil => exact h
  | cons m ms ih => exact ih _ (inv_hostStep module memory b s m h)

/-- A worker index is pending after a run iff it was pending before and no
ready message for it was delivered. -/
theorem mem_pending_foldl (i : Nat) :
    ∀ (msgs : List WMsg) (s : HostState), s.pending.Nodup →
      (i ∈ (msgs.foldl hostStep s).pending ↔
        i ∈ s.pending ∧ ∀ m ∈ msgs, ¬(m.worker = i ∧ m.type = some readyT)) := by
  intro msgs
  induction msgs with
  | nil => intro s _; simp
  | cons m ms ih =>
    intro s hnd
    rw [List.foldl_cons]
    have hpend : (hostStep s m).pending =
        (if m.worker ∈ s.pending ∧ m.type = some readyT then
          s.pending.erase m.worker else s.pending) := by
      unfold hostStep checkAll
      split
      · split
        · rfl
        · rfl
      · split
        · rfl
        · rfl
    have hnd2 : (hostStep s m).pending.Nodup := by
      rw [hpend]
      split
      · exact hnd.erase _
      · exact hnd
    rw [ih _ hnd2, hpend]
    by_cases hc : m.worker ∈ s.pending ∧ m.type = some readyT
    · rw [if_pos hc]
      rw [hnd.mem_erase_iff]
      constructor
      · rintro ⟨⟨hne, hip⟩, hrest⟩
        refine ⟨hip, ?_⟩
        intro m' hm'
        rcases List.mem_cons.mp hm' with hm' | hm'
        · subst hm'
          rintro ⟨hwi, -⟩
          exact hne (hwi ▸ rfl)
        · exact hrest m' hm'
      · rintro ⟨hip, hall⟩
        have hne : i ≠ m.worker := by
          intro h
          exact hall m (List.mem_cons_self m ms) ⟨h ▸ rfl, hc.2⟩
        exact ⟨⟨hne, hip⟩, fun m' hm' => hall m' (List.mem_cons_of_mem m hm')⟩
    · rw [if_neg hc]
      constructor
      · rintro ⟨hip, hrest⟩
        refine ⟨hip, ?_⟩
        intro m' hm'
        rcases List.mem_cons.mp hm' with hm' | hm'
        · subst hm'
          rintro ⟨hwi, hty⟩
          exact hc ⟨hwi ▸ hip, hty⟩
        · exact hrest m' hm'
      · rintro ⟨hip, hall⟩
        exact ⟨hip, fun m' hm' => hall m' (List.mem_cons_of_mem m hm')⟩

/-- Pending workers of a run of `startWorkers`: exactly those indices below
`numThreads` for which no ready message arrived. -/
theorem mem_pending_run (module memory : Nat) (b : Builder)
    (msgs : List WMsg) (i : Nat) :
    i ∈ (startWorkersRun module memory b msgs).pending ↔
      i < b.numThreads ∧
        ∀ m ∈ msgs, ¬(m.worker = i ∧ m.type = some readyT) := by
  have hinit : (startWorkersInit module memory b).pending =
      List.range b.numThreads := by
    unfold startWorkersInit checkAll
    split
    · rfl
    · rfl
  have hnd : (startWorkersInit module memory b).pending.Nodup := by
    rw [hinit]; exact List.nodup_range _
  unfold startWorkersRun
  rw [mem_pending_foldl i msgs _ hnd, hinit, List.mem_range]

/-- The call `builder.build()` appears in the trace once if the run has built, never
otherwise. -/
theorem build_count_run (module memory : Nat) (b : Builder)
    (msgs : List WMsg) :
    (startWorkersRun module memory b msgs).trace.count Event.build =
      (if (startWorkersRun module memory b msgs).built = true then 1 else 0) := by
  obtain ⟨-, -, -, -, -, -, hG⟩ := inv_run module memory b msgs
  by_cases hb : (startWorkersRun module memory b msgs).built = true
  · rw [if_pos hb]
    rw [if_pos hb] at hG
    obtain ⟨l1, hl1, hnb, -, -⟩ := hG
    rw [hl1, List.count_append, List.count_eq_zero.mpr hnb]
    rfl
  · rw [if_neg hb]
    rw [if_neg hb] at hG
    exact List.count_eq_zero.mpr hG.1

/-- The run has built exactly when a ready message arrived from every one of
the `numThreads` workers. -/
theorem built_iff_all_ready (module memory : Nat) (b : Builder)
    (msgs : List WMsg) :
    ((startWorkersRun module memory b msgs).built = true ↔
      ∀ i, i < b.numThreads →
        ∃ m ∈ msgs, m.worker = i ∧ m.type = some readyT) := by
  obtain ⟨-, -, -, hbuilt, -, -, -⟩ := inv_run module memory b msgs
  rw [hbuilt, List.eq_nil_iff_forall_not_mem]
  constructor
  · intro h i hi
    have := h i
    rw [mem_pending_run] at this
    push_neg at this
    obtain ⟨m, hm, hmi⟩ := this hi
    exact ⟨m, hm, hmi⟩
  · intro h i
    rw [mem_pending_run]
    rintro ⟨hi, hnone⟩
    obtain ⟨m, hm, hmi⟩ := h i hi
    exact hnone m hm hmi

/-- Claim C1: for every builder with `numThreads() = N`, `startWorkers` calls
`builder.build()` iff all `N` spawned contexts have been observed to emit a
`wasm_bindgen_worker_ready` message; `build()` is called exactly once,
strictly after all `N` ready observations, never before and never twice. -/
theorem c1_build_iff_all_ready (module memory : Nat) (b : Builder)
    (msgs : List WMsg) :
    (startWorkersRun module memory b msgs).trace.count Event.build ≤ 1 ∧
    ((startWorkersRun module memory b msgs).trace.count Event.build = 1 ↔
      ∀ i, i < b.numThreads →
        ∃ m ∈ msgs, m.worker = i ∧ m.type = some readyT) ∧
    ((startWorkersRun module memory b msgs).built = true →
      ∃ l1, (startWorkersRun module memory b msgs).trace =
          l1 ++ [Event.build, Event.resolveP] ∧
        Event.build ∉ l1 ∧
        ∀ i, i < b.numThreads → Event.readyObs i ∈ l1) := by
  have hc := build_count_run module memory b msgs
  have hiff := built_iff_all_ready module memory b msgs
  obtain ⟨-, -, -, -, -, -, hG⟩ := inv_run module memory b msgs
  refine ⟨?_, ?_, ?_⟩
  · rw [hc]; split <;> omega
  · rw [hc]
    by_cases hb : (startWorkersRun module memory b msgs).built = true
    · rw [if_pos hb]
      simpa using hiff.mp hb
    · rw [if_neg hb]
      constructor
      · intro h; cases h
      · intro h; exact absurd (hiff.mpr h) hb
  · intro hb
    rw [if_pos hb] at hG
    obtain ⟨l1, hl1, hnb, -, hall⟩ := hG
    exact ⟨l1, hl1, hnb, hall⟩

/-- Witness for C1: two workers, both reply ready, so `build()` runs once. -/
theorem c1_build_iff_all_ready_witness :
    (startWorkersRun 0 0 ⟨2, 5⟩ [⟨0, some readyT⟩, ⟨1, some readyT⟩]).trace.count
      Event.build = 1 :=
  (c1_build_iff_all_ready 0 0 ⟨2, 5⟩ [⟨0, some readyT⟩, ⟨1, some readyT⟩]).2.1.mpr
    (by decide)

/-- Claim C2: the promise returned by `startWorkers` resolves only after
`builder.build()` has been invoked (the resolution event follows the build
event in the trace); if some spawned context never emits a ready message,
then for every finite delivery the promise is unresolved and `build()` has
not been called.  No internal timeout exists: the statement holds for
arbitrarily long message lists. -/
theorem c2_resolve_after_build (module memory : Nat) (b : Builder)
    (msgs : List WMsg) :
    ((startWorkersRun module memory b msgs).resolved = true →
      ∃ l1, (startWorkersRun module memory b msgs).trace =
          l1 ++ [Event.build, Event.resolveP] ∧
        Event.resolveP ∉ l1 ∧ Event.build ∉ l1) ∧
    ((∃ i, i < b.numThreads ∧
        ∀ m ∈ msgs, ¬(m.worker = i ∧ m.type = some readyT)) →
      (startWorkersRun module memory b msgs).resolved = false ∧
      Event.build ∉ (startWorkersRun module memory b msgs).trace) := by
  obtain ⟨-, -, -, hbuilt, hres, -, hG⟩ := inv_run module memory b msgs
  constructor
  · intro hr
    have hb : (startWorkersRun module memory b msgs).built = true := hres ▸ hr
    rw [if_pos hb] at hG
    obtain ⟨l1, hl1, hnb, hnr, -⟩ := hG
    exact ⟨l1, hl1, hnr, hnb⟩
  · rintro ⟨i, hi, hnone⟩
    have hpend : i ∈ (startWorkersRun module memory b msgs).pending :=
      (mem_pending_run module memory b msgs i).mpr ⟨hi, hnone⟩
    have hb : (startWorkersRun module memory b msgs).built = false := by
      cases hcase : (startWorkersRun module memory b msgs).built
      · rfl
      · rw [hbuilt.mp hcase] at hpend
        exact absurd hpend (List.not_mem_nil _)
    rw [hb] at hG
    simp only [Bool.false_eq_true, if_false] at hG
    exact ⟨hres.trans hb, hG.1⟩

/-- Witness for C2: one worker that never replies; the promise stays pending
and `build()` is never called. -/
theorem c2_resolve_after_build_witness :
    (startWorkersRun 0 0 ⟨1, 0⟩ [⟨0, some "unrelated"⟩]).resolved = false ∧
    Event.build ∉ (startWorkersRun 0 0 ⟨1, 0⟩ [⟨0, some "unrelated"⟩]).trace :=
  (c2_resolve_after_build 0 0 ⟨1, 0⟩ [⟨0, some "unrelated"⟩]).2
    ⟨0, by decide, by decide⟩

/-- Claim C9: with `numThreads() = 0`, `startWorkers` spawns no context,
posts no init message, still calls `receiver()` once and `build()` exactly
once, and its promise resolves — whatever messages later arrive. -/
theorem c9_zero_threads (module memory rv : Nat) (msgs : List WMsg) :
    startWorkersRun module memory ⟨0, rv⟩ msgs =
      { trace := [Event.receiverCall, Event.build, Event.resolveP],
        pending := [], built := true, resolved := true } ∧
    (∀ i w, Event.spawn i w ∉ (startWorkersRun module memory ⟨0, rv⟩ msgs).trace) ∧
    (∀ i msg, Event.post i msg ∉ (startWorkersRun module memory ⟨0, rv⟩ msgs).trace) ∧
    (startWorkersRun module memory ⟨0, rv⟩ msgs).trace.count Event.receiverCall = 1 ∧
    (startWorkersRun module memory ⟨0, rv⟩ msgs).trace.count Event.build = 1 ∧
    (startWorkersRun module memory ⟨0, rv⟩ msgs).resolved = true := by
  have hinit : startWorkersInit module memory ⟨0, rv⟩ =
      { trace := [Event.receiverCall, Event.build, Event.resolveP],
        pending := [], built := true, resolved := true } := by
    simp [startWorkersInit, checkAll, spawnPhase, spawnPhaseAux]
  have hfix : ∀ ms : List WMsg,
      ms.foldl hostStep
        { trace := [Event.receiverCall, Event.build, Event.resolveP],
          pending := [], built := true, resolved := true } =
      { trace := [Event.receiverCall, Event.build, Event.resolveP],
        pending := [], built := true, resolved := true } := by
    intro ms
    induction ms with
    | nil => rfl
    | cons m ms ih =>
      rw [List.foldl_cons]
      have : hostStep
          { trace := [Event.receiverCall, Event.build, Event.resolveP],
            pending := [], built := true, resolved := true } m =
          { trace := [Event.receiverCall, Event.build, Event.resolveP],
            pending := [], built := true, resolved := true } := by
        simp [hostStep, checkAll]
      rw [this, ih]
  have hrun : startWorkersRun module memory ⟨0, rv⟩ msgs =
      { trace := [Event.receiverCall, Event.build, Event.resolveP],
        pending := [], built := true, resolved := true } := by
    unfold startWorkersRun
    rw [hinit, hfix]
  refine ⟨hrun, ?_, ?_, ?_, ?_, ?_⟩ <;> rw [hrun] <;> simp

/-- Count of a given spawn event in the spawn phase. -/
theorem count_spawn_aux (module memory : Nat) (b : Builder) (i : Nat)
    (w : String) :
    ∀ n, (spawnPhaseAux module memory b n).count (Event.spawn i w) =
      (if i < n ∧ w = workerName then 1 else 0) := by
  intro n
  induction n with
  | zero => simp [spawnPhaseAux]
  | succ n ih =>
    rw [spawnPhaseAux, List.count_append, ih]
    by_cases h : i = n ∧ w = workerName
    · obtain ⟨h1, h2⟩ := h
      subst h1; subst h2
      simp [List.count_cons]
    · have hz : ([Event.spawn n workerName,
          Event.post n (mkWorkerInit module memory b)].count (Event.spawn i w)) = 0 := by
        rw [List.count_eq_zero]
        intro hmem
        rcases List.mem_cons.mp hmem with hmem | hmem
        · injection hmem with h1 h2
          exact h ⟨h1, h2⟩
        · rw [List.mem_singleton] at hmem
          cases hmem
      rw [hz]
      by_cases hlt : i < n ∧ w = workerName
      · rw [if_pos hlt, if_pos ⟨Nat.lt_succ_of_lt hlt.1, hlt.2⟩]
      · rw [if_neg hlt, if_neg ?_]
        rintro ⟨hlt2, hw⟩
        rcases Nat.lt_succ_iff_lt_or_eq.mp hlt2 with hlt2 | hlt2
        · exact hlt ⟨hlt2, hw⟩
        · exact h ⟨hlt2, hw⟩

/-- Count of a given post event in the spawn phase. -/
theorem count_post_aux (module memory : Nat) (b : Builder) (i : Nat)
    (msg : Msg) :
    ∀ n, (spawnPhaseAux module memory b n).count (Event.post i msg) =
      (if i < n ∧ msg = mkWorkerInit module memory b then 1 else 0) := by
  intro n
  induction n with
  | zero => simp [spawnPhaseAux]
  | succ n ih =>
    rw [spawnPhaseAux, List.count_append, ih]
    by_cases h : i = n ∧ msg = mkWorkerInit module memory b
    · obtain ⟨h1, h2⟩ := h
      subst h1; subst h2
      simp [List.count_cons]
    · have hz : ([Event.spawn n workerName,
          Event.post n (mkWorkerInit module memory b)].count (Event.post i msg)) = 0 := by
        rw [List.count_eq_zero]
        intro hmem
        rcases List.mem_cons.mp hmem with hmem | hmem
        · cases hmem
        · rw [List.mem_singleton] at hmem
          injection hmem with h1 h2
          exact h ⟨h1, h2⟩
      rw [hz]
      by_cases hlt : i < n ∧ msg = mkWorkerInit module memory b
      · rw [if_pos hlt, if_pos ⟨Nat.lt_succ_of_lt hlt.1, hlt.2⟩]
      · rw [if_neg hlt, if_neg ?_]
        rintro ⟨hlt2, hw⟩
        rcases Nat.lt_succ_iff_lt_or_eq.mp hlt2 with hlt2 | hlt2
        · exact hlt ⟨hlt2, hw⟩
        · exact h ⟨hlt2, hw⟩

/-- The tail part of a run trace (ready/build/resolve events) contains no
receiver, spawn or post event. -/
theorem tail_count_zero (l : List Event)
    (hsh : ∀ e ∈ l, (∃ i, e = Event.readyObs i) ∨ e = Event.build ∨
      e = Event.resolveP) :
    (∀ i w, Event.spawn i w ∉ l) ∧ (∀ i msg, Event.post i msg ∉ l) ∧
      Event.receiverCall ∉ l := by
  refine ⟨?_, ?_, ?_⟩
  · intro i w hmem
    rcases hsh _ hmem with ⟨j, hj⟩ | hj | hj <;> cases hj
  · intro i msg hmem
    rcases hsh _ hmem with ⟨j, hj⟩ | hj | hj <;> cases hj
  · intro hmem
    rcases hsh _ hmem with ⟨j, hj⟩ | hj | hj <;> cases hj

/-- Claim C4: `startWorkers` with `numThreads() = N ≥ 1` spawns exactly `N`
contexts (one spawn per index below `N`, none elsewhere) and calls
`builder.receiver()` exactly once regardless of `N`; every context is posted
exactly one init message, and every posted init message is the single shared
one embedding the given module, memory and the one receiver handle. -/
theorem c4_spawn_and_single_receiver (module memory : Nat) (b : Builder)
    (msgs : List WMsg) (hN : 1 ≤ b.numThreads) :
    (startWorkersRun module memory b msgs).trace.count Event.receiverCall = 1 ∧
    (∀ i, i < b.numThreads →
      (startWorkersRun module memory b msgs).trace.count
        (Event.spawn i workerName) = 1 ∧
      (startWorkersRun module memory b msgs).trace.count
        (Event.post i (mkWorkerInit module memory b)) = 1) ∧
    (∀ i w, Event.spawn i w ∈ (startWorkersRun module memory b msgs).trace →
      i < b.numThreads ∧ w = workerName) ∧
    (∀ i msg, Event.post i msg ∈ (startWorkersRun module memory b msgs).trace →
      i < b.numThreads ∧ msg = mkWorkerInit module memory b) := by
  obtain ⟨-, -, -, -, -, ⟨l, hl, hlsh⟩, -⟩ := inv_run module memory b msgs
  obtain ⟨hnospawn, hnopost, hnorecv⟩ := tail_count_zero l hlsh
  have hspcount : ∀ i w, (spawnPhase module memory b).count (Event.spawn i w) =
      (if i < b.numThreads ∧ w = workerName then 1 else 0) :=
    fun i w => count_spawn_aux module memory b i w b.numThreads
  have hpocount : ∀ i msg, (spawnPhase module memory b).count (Event.post i msg) =
      (if i < b.numThreads ∧ msg = mkWorkerInit module memory b then 1 else 0) :=
    fun i msg => count_post_aux module memory b i msg b.numThreads
  have hsprecv : (spawnPhase module memory b).count Event.receiverCall = 0 := by
    rw [List.count_eq_zero]
    intro hmem
    rcases spawnPhaseAux_shape module memory b b.numThreads _ hmem with
      ⟨j, hj⟩ | ⟨j, hj⟩ <;> cases hj
  refine ⟨?_, ?_, ?_, ?_⟩
  · rw [hl, List.count_cons_self, List.count_append, hsprecv,
      List.count_eq_zero.mpr hnorecv]
  · intro i hi
    constructor
    · rw [hl, List.count_cons_of_ne (by intro h; cases h), List.count_append,
        hspcount, if_pos ⟨hi, rfl⟩,
        List.count_eq_zero.mpr (hnospawn i workerName)]
    · rw [hl, List.count_cons_of_ne (by intro h; cases h), List.count_append,
        hpocount, if_pos ⟨hi, rfl⟩,
        List.count_eq_zero.mpr (hnopost i (mkWorkerInit module memory b))]
  · intro i w hmem
    rw [hl] at hmem
    rcases List.mem_cons.mp hmem with hmem | hmem
    · cases hmem
    · rcases List.mem_append.mp hmem with hmem | hmem
      · have : (spawnPhase module memory b).count (Event.spawn i w) ≠ 0 :=
          Nat.pos_iff_ne_zero.mp (List.count_pos_iff.mpr hmem)
        rw [hspcount] at this
        by_cases hc : i < b.numThreads ∧ w = workerName
        · exact hc
        · rw [if_neg hc] at this; exact absurd rfl this
      · exact absurd hmem (hnospawn i w)
  · intro i msg hmem
    rw [hl] at hmem
    rcases List.mem_cons.mp hmem with hmem | hmem
    · cases hmem
    · rcases List.mem_append.mp hmem with hmem | hmem
      · have : (spawnPhase module memory b).count (Event.post i msg) ≠ 0 :=
          Nat.pos_iff_ne_zero.mp (List.count_pos_iff.mpr hmem)
        rw [hpocount] at this
        by_cases hc : i < b.numThreads ∧ msg = mkWorkerInit module memory b
        · exact hc
        · rw [if_neg hc] at this; exact absurd rfl this
      · exact absurd hmem (hnopost i msg)

/-- Witness for C4: a two-worker run has one receiver call, one spawn and
one post per index. -/
theorem c4_spawn_and_single_receiver_witness :
    (startWorkersRun 3 4 ⟨2, 5⟩ []).trace.count Event.receiverCall = 1 ∧
    (startWorkersRun 3 4 ⟨2, 5⟩ []).trace.count (Event.spawn 0 workerName) = 1 ∧
    (startWorkersRun 3 4 ⟨2, 5⟩ []).trace.count
      (Event.post 1 (mkWorkerInit 3 4 ⟨2, 5⟩)) = 1 := by
  have h := c4_spawn_and_single_receiver 3 4 ⟨2, 5⟩ [] (by decide)
  exact ⟨h.1, (h.2.1 0 (by decide)).1, (h.2.1 1 (by decide)).2⟩

/-- Claim C3: for every endpoint message stream and target kind,
`waitForMsgType` resolves with the data of the first message whose type
equals the target kind, resolves at most once (a second matching message
after the first causes no second resolution, because the single listener is
removed exactly upon the match), and messages of other kinds are ignored. -/
theorem c3_waiter_one_shot (ty : String) (ms : List Msg) :
    (waiterRun ty ms).resolved = ms.find? (fun m => m.type = some ty) ∧
    (waiterRun ty ms).resolveCount ≤ 1 ∧
    ((waiterRun ty ms).resolveCount = 1 ↔ ∃ m ∈ ms, m.type = some ty) ∧
    ((waiterRun ty ms).registered = false ↔ ∃ m ∈ ms, m.type = some ty) := by
  rw [waiterRun_eq]
  cases hf : ms.find? (fun m => m.type = some ty) with
  | none =>
    have hno : ¬∃ m ∈ ms, m.type = some ty := by
      rintro ⟨m, hm, hty⟩
      have := List.find?_eq_none.mp hf m hm
      simp [hty] at this
    simp [hno]
  | some m =>
    have hmem : m ∈ ms := List.mem_of_find?_eq_some hf
    have hty : m.type = some ty := by
      have := List.find?_some hf
      simpa using this
    refine ⟨rfl, Nat.le_refl 1, ?_, ?_⟩
    · exact ⟨fun _ => ⟨m, hmem, hty⟩, fun _ => rfl⟩
    · exact ⟨fun _ => ⟨m, hmem, hty⟩, fun _ => rfl⟩

/-- Claim C5: inside one spawned context the trampoline's steps are strictly
ordered — the received init message, then module resolution, then
`initSync` with the module/memory payload of that init message, then exactly
one ready message, then the worker loop with the receiver of that init
message; and in every execution (even a failing one) the work loop is
entered only after the ready message was sent. -/
theorem c5_trampoline_order (incoming : List Msg) (resolveOk : Bool) :
    (∀ d, (waiterRun initT incoming).resolved = some d → resolveOk = true →
      trampoline incoming resolveOk =
        [CtxEvent.listenInit, CtxEvent.recvInit d, CtxEvent.moduleResolved,
         CtxEvent.initSyncCall d.module d.memory, CtxEvent.readySent,
         CtxEvent.workerLoop d.receiver]) ∧
    ((trampoline incoming resolveOk).count CtxEvent.readySent ≤ 1) ∧
    (∀ r, CtxEvent.workerLoop r ∈ trampoline incoming resolveOk →
      ∃ l1, trampoline incoming resolveOk = l1 ++ [CtxEvent.workerLoop r] ∧
        CtxEvent.readySent ∈ l1 ∧ l1.count CtxEvent.readySent = 1) := by
  unfold trampoline
  cases hf : (waiterRun initT incoming).resolved with
  | none =>
    refine ⟨?_, by simp, ?_⟩
    · intro d hd; cases hd
    · intro r hr; simp at hr
  | some d =>
    cases resolveOk with
    | false =>
      refine ⟨?_, by simp, ?_⟩
      · intro d' hd hok; cases hok
      · intro r hr; simp at hr
    | true =>
      refine ⟨?_, by simp [List.count_cons], ?_⟩
      · intro d' hd _
        injection hd with hd
        subst hd
        rfl
      · intro r hr
        have hrd : r = d.receiver := by
          rcases List.mem_cons.mp hr with h | hr
          · cases h
          rcases List.mem_cons.mp hr with h | hr
          · cases h
          rcases List.mem_cons.mp hr with h | hr
          · cases h
          rcases List.mem_cons.mp hr with h | hr
          · cases h
          rcases List.mem_cons.mp hr with h | hr
          · cases h
          rw [List.mem_singleton] at hr
          injection hr with hr
        subst hrd
        exact ⟨[CtxEvent.listenInit, CtxEvent.recvInit d,
          CtxEvent.moduleResolved, CtxEvent.initSyncCall d.module d.memory,
          CtxEvent.readySent], rfl, by simp, by simp [List.count_cons]⟩

/-- Witness for C5: a context that gets the init message first and resolves
its module runs the five bootstrap steps in order. -/
theorem c5_trampoline_order_witness :
    trampoline [⟨some initT, 1, 2, 3⟩] true =
      [CtxEvent.listenInit, CtxEvent.recvInit ⟨some initT, 1, 2, 3⟩,
       CtxEvent.moduleResolved, CtxEvent.initSyncCall 1 2, CtxEvent.readySent,
       CtxEvent.workerLoop 3] :=
  (c5_trampoline_order [⟨some initT, 1, 2, 3⟩] true).1
    ⟨some initT, 1, 2, 3⟩ (by decide) rfl

/-- Spawn events of any run carry the fixed worker name and an index below
`numThreads`. -/
theorem spawn_mem_run (module memory : Nat) (b : Builder) (msgs : List WMsg)
    (i : Nat) (w : String)
    (hmem : Event.spawn i w ∈ (startWorkersRun module memory b msgs).trace) :
    i < b.numThreads ∧ w = workerName := by
  obtain ⟨-, -, -, -, -, ⟨l, hl, hlsh⟩, -⟩ := inv_run module memory b msgs
  rw [hl] at hmem
  rcases List.mem_cons.mp hmem with hmem | hmem
  · cases hmem
  · rcases List.mem_append.mp hmem with hmem | hmem
    · have hc : (spawnPhase module memory b).count (Event.spawn i w) ≠ 0 :=
        Nat.pos_iff_ne_zero.mp (List.count_pos_iff.mpr hmem)
      have hrw : (spawnPhase module memory b).count (Event.spawn i w) =
          (if i < b.numThreads ∧ w = workerName then 1 else 0) :=
        count_spawn_aux module memory b i w b.numThreads
      rw [hrw] at hc
      by_cases h : i < b.numThreads ∧ w = workerName
      · exact h
      · rw [if_neg h] at hc; exact absurd rfl hc
    · rcases hlsh _ hmem with ⟨j, hj⟩ | hj | hj <;> cases hj

/-- The trampoline always begins by installing the init listener. -/
theorem listenInit_mem_trampoline (incoming : List Msg) (resolveOk : Bool) :
    CtxEvent.listenInit ∈ trampoline incoming resolveOk := by
  unfold trampoline
  cases (waiterRun initT incoming).resolved with
  | none => simp
  | some d => cases resolveOk <;> simp

/-- Claim C10: the worker entry trampoline is installed iff the ambient
global `name` equals `"wasm_bindgen_worker"`; in any other context the
module load performs no bootstrap side effect; and the Bootstrapper spawns
every worker with exactly that name. -/
theorem c10_trampoline_guard (g : String) (incoming : List Msg)
    (resolveOk : Bool) (module memory : Nat) (b : Builder)
    (msgs : List WMsg) :
    (CtxEvent.listenInit ∈ workerHelpersTopLevel g incoming resolveOk ↔
      g = workerName) ∧
    (g ≠ workerName → workerHelpersTopLevel g incoming resolveOk = []) ∧
    (∀ i w, Event.spawn i w ∈ (startWorkersRun module memory b msgs).trace →
      w = workerName) := by
  refine ⟨?_, ?_, ?_⟩
  · constructor
    · intro h
      by_cases hg : g = workerName
      · exact hg
      · rw [workerHelpersTopLevel, if_neg hg] at h
        exact absurd h (List.not_mem_nil _)
    · intro hg
      rw [workerHelpersTopLevel, if_pos hg]
      exact listenInit_mem_trampoline incoming resolveOk
  · intro hg
    rw [workerHelpersTopLevel, if_neg hg]
  · intro i w hmem
    exact (spawn_mem_run module memory b msgs i w hmem).2

/-- Witness for C10: loading the module with ambient name `"main"` installs
nothing. -/
theorem c10_trampoline_guard_witness :
    workerHelpersTopLevel "main" [] true = [] :=
  (c10_trampoline_guard "main" [] true 0 0 ⟨1, 0⟩ []).2.1 (by decide)

/-! ### Module resolver

The two patterns of `resolveMainModule`,

  pattern A (case-insensitive):   <script\s+src=[quote]([^quotes]+)[quote]\s+type\s*=\s*[quote]?module
  pattern B (case-sensitive):     from\s+[quote]\.\/([^quotes]+)[quote]

are implemented as maximal-munch scanners.  Every greedy piece of the two
patterns is followed by a token whose character class is disjoint from the
piece's class (whitespace runs are followed by literals or quotes, the
non-quote capture is followed by a quote, the optional quote by the letter
m), so maximal munch without backtracking coincides with the JS engine's
semantics on exactly these patterns.  The whitespace class is modelled by
its ASCII members. -/

def isSpaceJS (c : Char) : Bool :=
  c == Char.ofNat 32 || c == Char.ofNat 9 || c == Char.ofNat 10 ||
  c == Char.ofNat 13 || c == Char.ofNat 11 || c == Char.ofNat 12

/-- A single or double quote (the class [quote] above). -/
def isQuote (c : Char) : Bool := c == Char.ofNat 39 || c == Char.ofNat 34

/-- Match a literal case-insensitively, returning the rest of the input. -/
def matchLitCI : List Char → List Char → Option (List Char)
  | [], s => some s
  | _ :: _, [] => none
  | p :: ps, c :: cs => if p.toLower == c.toLower then matchLitCI ps cs else none

/-- Match a literal case-sensitively, returning the rest of the input. -/
def matchLit : List Char → List Char → Option (List Char)
  | [], s => some s
  | _ :: _, [] => none
  | p :: ps, c :: cs => if p == c then matchLit ps cs else none

/-- Greedy one-or-more character-class match (maximal munch). -/
def takeWhile1 (p : Char → Bool) (s : List Char) :
    Option (List Char × List Char) :=
  match s.takeWhile p with
  | [] => none
  | r => some (r, s.dropWhile p)

/-- Attempt pattern A at the head of the input; on success return the text
of the capture group (the script src). -/
def matchScriptAt (s : List Char) : Option String :=
  match matchLitCI "<script".toList s with
  | none => none
  | some s =>
    match takeWhile1 isSpaceJS s with
    | none => none
    | some (_, s) =>
      match matchLitCI "src=".toList s with
      | none => none
      | some s =>
        match s with
        | [] => none
        | q :: s =>
          if isQuote q then
            match takeWhile1 (fun c => !(isQuote c)) s with
            | none => none
            | some (cap, s) =>
              match s with
              | [] => none
              | q2 :: s =>
                if isQuote q2 then
                  match takeWhile1 isSpaceJS s with
                  | none => none
                  | some (_, s) =>
                    match matchLitCI "type".toList s with
                    | none => none
                    | some s =>
                      match s.dropWhile isSpaceJS with
                      | [] => none
                      | c :: s =>
                        if c == '=' then
                          let s := s.dropWhile isSpaceJS
                          let s := match s with
                            | c2 :: rest => if isQuote c2 then rest else c2 :: rest
                            | [] => []
                          match matchLitCI "module".toList s with
                          | none => none
                          | some _ => some (String.mk cap)
                        else none
                else none
          else none

/-- Attempt pattern B at the head of the input; on success return the text
of the capture group (the chunk name after "./"). -/
def matchFromAt (s : List Char) : Option String :=
  match matchLit "from".toList s with
  | none => none
  | some s =>
    match takeWhile1 isSpaceJS s with
    | none => none
    | some (_, s) =>
      match s with
      | [] => none
      | q :: s =>
        if isQuote q then
          match matchLit "./".toList s with
          | none => none
          | some s =>
            match takeWhile1 (fun c => !(isQuote c)) s with
            | none => none
            | some (cap, s) =>
              match s with
              | [] => none
              | q2 :: _ => if isQuote q2 then some (String.mk cap) else none
        else none

/-- Behavior of `String.prototype.match` without the global flag: try the pattern at
every start position from left to right, returning the first success. -/
def scanFirst (f : List Char → Option String) : List Char → Option String
  | [] => f []
  | c :: cs =>
    match f (c :: cs) with
    | some r => some r
    | none => scanFirst f cs

/-- The search `html.match(pattern A)`, reduced to its capture group. -/
def scriptTagSearch (html : String) : Option String :=
  scanFirst matchScriptAt html.toList

/-- The search `runText.match(pattern B)`, reduced to its capture group. -/
def fromSearch (txt : String) : Option String :=
  scanFirst matchFromAt txt.toList

/-- Network/import actions the resolver performs, in order. -/
inductive RAct where
  | importTry (specifier : String)
  | fetchAct (url : String)
  | importAct (url : String)
deriving DecidableEq, Repr

/-- Environment of one `resolveMainModule()` call: the outcome of the direct
dynamic import, the root URL (`new URL('../../..', import.meta.url).href`),
the text outcomes of `fetch(u)` + `.text()` for the root and for script
URLs, the outcome of a final dynamic import, and the platform's URL
resolution `new URL(rel, base).href`.  Opaque modules and errors are
numbered. -/
structure ResolverEnv where
  directImport : Except Nat Nat
  rootUrl : String
  rootFetch : Except Nat String
  scriptFetch : String → Except Nat String
  dynImport : String → Except Nat Nat
  urlResolve : String → String → String

/-- The specifier of the direct import attempt (three directory levels up
from the helper's own location). -/
def mainSpecifier : String := "../../.."

/-- The resolver `resolveMainModule()`: try the direct import; on failure fetch the root
URL's text, search it with pattern A, fetch the matched script URL's text,
search that with pattern B, and import the resolved chunk; whenever either
search finds nothing, rethrow the original import error `e`.  Returns the
result together with the list of performed actions. -/
def resolveMainModule (env : ResolverEnv) : Except Nat Nat × List RAct :=
  match env.directImport with
  | Except.ok m => (Except.ok m, [RAct.importTry mainSpecifier])
  | Except.error e =>
    match env.rootFetch with
    | Except.error ef =>
      (Except.error ef, [RAct.importTry mainSpecifier, RAct.fetchAct env.rootUrl])
    | Except.ok html =>
      match scriptTagSearch html with
      | none =>
        (Except.error e, [RAct.importTry mainSpecifier, RAct.fetchAct env.rootUrl])
      | some src =>
        let scriptUrl := env.urlResolve src env.rootUrl
        match env.scriptFetch scriptUrl with
        | Except.error ef2 =>
          (Except.error ef2,
           [RAct.importTry mainSpecifier, RAct.fetchAct env.rootUrl,
            RAct.fetchAct scriptUrl])
        | Except.ok runText =>
          match fromSearch runText with
          | none =>
            (Except.error e,
             [RAct.importTry mainSpecifier, RAct.fetchAct env.rootUrl,
              RAct.fetchAct scriptUrl])
          | some chunk =>
            let chunkUrl := env.urlResolve chunk env.rootUrl
            (env.dynImport chunkUrl,
             [RAct.importTry mainSpecifier, RAct.fetchAct env.rootUrl,
              RAct.fetchAct scriptUrl, RAct.importAct chunkUrl])

/-- Claim C8: the resolver's first action is the direct relative import of
`../../..` (three directory levels up), and whenever that import succeeds it
returns exactly that module with no network fetch at all. -/
theorem c8_direct_import_no_fetch (env : ResolverEnv) :
    (resolveMainModule env).2.head? = some (RAct.importTry mainSpecifier) ∧
    (∀ m, env.directImport = Except.ok m →
      resolveMainModule env = (Except.ok m, [RAct.importTry mainSpecifier]) ∧
      ∀ u, RAct.fetchAct u ∉ (resolveMainModule env).2) := by
  constructor
  · unfold resolveMainModule
    cases env.directImport with
    | ok m => rfl
    | error e =>
      dsimp only
      cases env.rootFetch with
      | error ef => rfl
      | ok html =>
        dsimp only
        cases scriptTagSearch html with
        | none => rfl
        | some src =>
          dsimp only
          cases env.scriptFetch (env.urlResolve src env.rootUrl) with
          | error e2 => rfl
          | ok txt =>
            dsimp only
            cases fromSearch txt with
            | none => rfl
            | some chunk => rfl
  · intro m hok
    have heq : resolveMainModule env =
        (Except.ok m, [RAct.importTry mainSpecifier]) := by
      unfold resolveMainModule
      rw [hok]
    refine ⟨heq, ?_⟩
    intro u hmem
    rw [heq] at hmem
    have := List.mem_singleton.mp hmem
    cases this

/-- Witness for C8: a successful direct import performs no fetch. -/
theorem c8_direct_import_no_fetch_witness :
    resolveMainModule
        { directImport := Except.ok 11, rootUrl := "http://h/",
          rootFetch := Except.error 1, scriptFetch := fun _ => Except.error 1,
          dynImport := fun _ => Except.error 1,
          urlResolve := fun rel _ => rel } =
      (Except.ok 11, [RAct.importTry mainSpecifier]) :=
  ((c8_direct_import_no_fetch _).2 11 rfl).1

/-- Claim C7: when the direct import failed with `e` and a fallback search
step finds nothing — no script tag in the fetched root markup, or no
relative from-import in the fetched script text — the resolver's result is
the original error `e`, not an error of the fallback path. -/
theorem c7_propagates_original_error (env : ResolverEnv) (e : Nat)
    (html : String)
    (hdi : env.directImport = Except.error e)
    (hrf : env.rootFetch = Except.ok html) :
    (scriptTagSearch html = none →
      resolveMainModule env =
        (Except.error e,
         [RAct.importTry mainSpecifier, RAct.fetchAct env.rootUrl])) ∧
    (∀ src txt, scriptTagSearch html = some src →
      env.scriptFetch (env.urlResolve src env.rootUrl) = Except.ok txt →
      fromSearch txt = none →
      resolveMainModule env =
        (Except.error e,
         [RAct.importTry mainSpecifier, RAct.fetchAct env.rootUrl,
          RAct.fetchAct (env.urlResolve src env.rootUrl)])) := by
  constructor
  · intro htag
    unfold resolveMainModule
    rw [hdi]
    dsimp only
    rw [hrf]
    dsimp only
    rw [htag]
  · intro src txt htag hsf hfrom
    unfold resolveMainModule
    rw [hdi]
    dsimp only
    rw [hrf]
    dsimp only
    rw [htag]
    dsimp only
    rw [hsf]
    dsimp only
    rw [hfrom]

/-- Witness for C7: markup with no module script tag leaves the original
error 5 of the direct import as the outcome. -/
theorem c7_propagates_original_error_witness :
    resolveMainModule
        { directImport := Except.error 5, rootUrl := "http://h/",
          rootFetch := Except.ok "<p>hello</p>",
          scriptFetch := fun _ => Except.error 9,
          dynImport := fun _ => Except.error 9,
          urlResolve := fun rel _ => rel } =
      (Except.error 5,
       [RAct.importTry mainSpecifier, RAct.fetchAct "http://h/"]) :=
  (c7_propagates_original_error _ 5 "<p>hello</p>" rfl rfl).1 (by decide)

/-- The root markup of the C6 counterexample: a module script tag written
with `type` before `src`, exactly the form the claim quotes. -/
def htmlTypeFirst : String :=
  "<script type=\"module\" src=\"/app-abcd.js\"></script>"

/-- Resolver environment delivering `htmlTypeFirst` for the root document
after a failed direct import. -/
def envTypeFirst : ResolverEnv :=
  { directImport := Except.error 7, rootUrl := "http://localhost/",
    rootFetch := Except.ok htmlTypeFirst,
    scriptFetch := fun _ => Except.error 99,
    dynImport := fun _ => Except.error 98,
    urlResolve := fun rel _ => rel }

/-- Counterexample to C6 as stated: on HTML containing the tag
`<script type="module" src="/app-abcd.js">` the tag search fails — the
source pattern requires the `src` attribute *before* `type` — so the
resolver performs no second fetch and rethrows the original error instead
of fetching `/app-abcd.js`. -/
theorem c6_counterexample_type_first :
    scriptTagSearch htmlTypeFirst = none ∧
    resolveMainModule envTypeFirst =
      (Except.error 7,
       [RAct.importTry mainSpecifier, RAct.fetchAct "http://localhost/"]) := by
  constructor
  · decide
  · rfl

/-- Claim C6 (amended): in the fallback path, for every HTML text whose
first script-tag match — the pattern requires `src` before `type`, e.g.
`<script src="/app-abcd.js" type="module">` — captures `/app-abcd.js`, the
resolver fetches `/app-abcd.js` resolved against the root URL; then, given
that script's text whose from-import search yields `./chunk-123.js`, it
dynamically imports `chunk-123.js` resolved against the root URL. -/
theorem c6_amended_scrape (env : ResolverEnv) (e : Nat) (html txt : String)
    (hdi : env.directImport = Except.error e)
    (hrf : env.rootFetch = Except.ok html)
    (htag : scriptTagSearch html = some "/app-abcd.js")
    (hsf : env.scriptFetch (env.urlResolve "/app-abcd.js" env.rootUrl) =
      Except.ok txt)
    (hfrom : fromSearch txt = some "chunk-123.js") :
    resolveMainModule env =
      (env.dynImport (env.urlResolve "chunk-123.js" env.rootUrl),
       [RAct.importTry mainSpecifier, RAct.fetchAct env.rootUrl,
        RAct.fetchAct (env.urlResolve "/app-abcd.js" env.rootUrl),
        RAct.importAct (env.urlResolve "chunk-123.js" env.rootUrl)]) := by
  unfold resolveMainModule
  rw [hdi]
  dsimp only
  rw [hrf]
  dsimp only
  rw [htag]
  dsimp only
  rw [hsf]
  dsimp only
  rw [hfrom]

/-- Root markup of the C6 witness, with the tag in src-first order. -/
def htmlSrcFirst : String :=
  "<head><script src=\"/app-abcd.js\" type=\"module\"></script></head>"

/-- Text of the fetched entry script of the C6 witness. -/
def chunkScriptText : String := "import init from \"./chunk-123.js\"; init();"

def envSrcFirst : ResolverEnv :=
  { directImport := Except.error 7, rootUrl := "http://localhost/",
    rootFetch := Except.ok htmlSrcFirst,
    scriptFetch := fun u =>
      if u = "/app-abcd.js" then Except.ok chunkScriptText
      else Except.error 99,
    dynImport := fun u => if u = "chunk-123.js" then Except.ok 42
      else Except.error 98,
    urlResolve := fun rel _ => rel }

/-- Witness for the amended C6: with a src-first tag the search succeeds
with `/app-abcd.js`, that script is fetched, and the chunk named by its
from-import is imported. -/
theorem c6_amended_scrape_witness :
    resolveMainModule envSrcFirst =
      (Except.ok 42,
       [RAct.importTry mainSpecifier, RAct.fetchAct "http://localhost/",
        RAct.fetchAct "/app-abcd.js", RAct.importAct "chunk-123.js"]) := by
  have h := c6_amended_scrape envSrcFirst 7 htmlSrcFirst chunkScriptText
    rfl rfl (by decide) (by rfl) (by decide)
  simpa [envSrcFirst] using h
